import Mathlib

/-!
Shallow embedding of the heads-up no-limit hold-em rules engine
(src/game/deck.rs, src/game/hand.rs, src/game/actions.rs, src/game/state.rs).

Conventions of the embedding:
- Rust u32 and u8 fields are modelled as Nat. Additions are modelled as the
  mathematical sum (chip totals in a session stay far below 2^32). The two
  unchecked u32 subtractions in apply_action are modelled with the
  two and complement wrap of release-mode Rust (sub32 below); the u8
  action counter wraps at 256 as in release mode.
- The thread-rng shuffle of deck.rs is external nondeterminism: the
  shuffled card order is passed to start_new_hand as an explicit parameter.
- HashMap rank or suit tallies are modelled as counting functions; the
  source iterates HashMap entries in unspecified order, and every use whose
  result depends on that order is over a set with at most one matching
  entry, so iterating Rank.all in declaration order gives the same result.
-/

namespace Poker

/-- Suit enum from deck.rs. -/
inductive Suit
  | spades
  | hearts
  | diamonds
  | clubs
deriving DecidableEq, Fintype

/-- Rank enum from deck.rs, discriminants 2 to 14. -/
inductive Rank
  | two
  | three
  | four
  | five
  | six
  | seven
  | eight
  | nine
  | ten
  | jack
  | queen
  | king
  | ace
deriving DecidableEq, Fintype

/-- Numeric value of a rank: the discriminant assigned in deck.rs (Two = 2 .. Ace = 14). -/
def rankValue : Rank → Nat
  | .two => 2
  | .three => 3
  | .four => 4
  | .five => 5
  | .six => 6
  | .seven => 7
  | .eight => 8
  | .nine => 9
  | .ten => 10
  | .jack => 11
  | .queen => 12
  | .king => 13
  | .ace => 14

/-- Rank::ALL from deck.rs. -/
def Rank.all : List Rank :=
  [.two, .three, .four, .five, .six, .seven, .eight, .nine, .ten, .jack, .queen, .king, .ace]

/-- Suit iteration order used by Deck::new in deck.rs. -/
def Suit.all : List Suit := [.spades, .hearts, .diamonds, .clubs]

/-- Card struct from deck.rs. -/
structure Card where
  rank : Rank
  suit : Suit
deriving DecidableEq

/-- rank_name from hand.rs. -/
def rankName : Rank → String
  | .two => "twos"
  | .three => "threes"
  | .four => "fours"
  | .five => "fives"
  | .six => "sixes"
  | .seven => "sevens"
  | .eight => "eights"
  | .nine => "nines"
  | .ten => "tens"
  | .jack => "jacks"
  | .queen => "queens"
  | .king => "kings"
  | .ace => "aces"

/-- HandRank enum from hand.rs, discriminants 0 to 8. -/
inductive HandRank
  | highCard
  | pair
  | twoPair
  | threeOfAKind
  | straight
  | flush
  | fullHouse
  | fourOfAKind
  | straightFlush
deriving DecidableEq, Fintype

/-- Discriminant of a hand category (HighCard = 0 .. StraightFlush = 8). -/
def handRankValue : HandRank → Nat
  | .highCard => 0
  | .pair => 1
  | .twoPair => 2
  | .threeOfAKind => 3
  | .straight => 4
  | .flush => 5
  | .fullHouse => 6
  | .fourOfAKind => 7
  | .straightFlush => 8

/-- Comparison of naturals, as the derived Ord on a fieldless Rust enum
compares discriminants. -/
def cmpNat (a b : Nat) : Ordering :=
  if a < b then .lt else if a = b then .eq else .gt

/-- Derived Ord on Rank: discriminant comparison. -/
def cmpRank (a b : Rank) : Ordering :=
  cmpNat (rankValue a) (rankValue b)

/-- Derived Ord on HandRank: discriminant comparison. -/
def cmpHandRank (a b : HandRank) : Ordering :=
  cmpNat (handRankValue a) (handRankValue b)

/-- Lexicographic Ord on Vec of Rank (a strict prefix compares less),
as Rust derives for Vec. -/
def cmpKickers : List Rank → List Rank → Ordering
  | [], [] => .eq
  | [], _ :: _ => .lt
  | _ :: _, [] => .gt
  | a :: as_, b :: bs => (cmpRank a b).then (cmpKickers as_ bs)

/-- HandEvaluation struct from hand.rs. -/
structure HandEvaluation where
  rank : HandRank
  kickers : List Rank
  description : String
deriving DecidableEq

/-- The showdown comparison of hand.rs and state.rs: category first, then
kickers lexicographically (rank.cmp(..).then_with(kickers.cmp(..))). -/
def cmpEval (a b : HandEvaluation) : Ordering :=
  (cmpHandRank a.rank b.rank).then (cmpKickers a.kickers b.kickers)

/-- Tally of one rank among the cards (the HashMap rank_counts entry of hand.rs). -/
def countRank (cards : List Card) (r : Rank) : Nat :=
  (cards.filter fun c => decide (c.rank = r)).length

/-- Tally of one suit among the cards (the HashMap suit_counts entry of hand.rs). -/
def countSuit (cards : List Card) (st : Suit) : Nat :=
  (cards.filter fun c => decide (c.suit = st)).length

/-- sort_by(|a, b| b.cmp(a)) from hand.rs: sort into descending rank order. -/
def sortRanksDesc (l : List Rank) : List Rank :=
  l.insertionSort fun a b => rankValue b ≤ rankValue a

/-- Vec::dedup: drop consecutive repeated ranks. -/
def dedupAdj : List Rank → List Rank
  | [] => []
  | [x] => [x]
  | x :: y :: rest => if x = y then dedupAdj (y :: rest) else x :: dedupAdj (y :: rest)

/-- The windows(5) loop of check_straight: first window of five consecutive
entries whose ends differ by 4 gives the straight high card. -/
def straightWindows : List Rank → Option Rank
  | r0 :: r1 :: r2 :: r3 :: r4 :: rest =>
    if rankValue r0 = rankValue r4 + 4 then some r0
    else straightWindows (r1 :: r2 :: r3 :: r4 :: rest)
  | _ => none

/-- check_straight from hand.rs: input is sorted descending and deduped;
the wheel (A-2-3-4-5) counts as a Five-high straight. -/
def check_straight (sorted_ranks : List Rank) : Option Rank :=
  if sorted_ranks.length < 5 then none
  else
    let values := sorted_ranks.map rankValue
    if values.contains 14 && values.contains 2 && values.contains 3 &&
        values.contains 4 && values.contains 5 then
      some .five
    else
      straightWindows sorted_ranks

/-- Ranks whose tally equals n, in Rank.all order (the matching entries of
the rank_counts HashMap; see the header note on iteration order). -/
def ranksWithCount (cards : List Card) (n : Nat) : List Rank :=
  Rank.all.filter fun r => decide (countRank cards r = n)

/-- Running maximum of a list of ranks, as the tracking loop in
evaluate_partial of hand.rs and Iterator::max keep it. -/
def maxRankOpt (l : List Rank) : Option Rank :=
  l.foldl
    (fun acc r =>
      match acc with
      | none => some r
      | some m => if rankValue m < rankValue r then some r else some m)
    none

/-- The partial-estimate evaluator of hand.rs for fewer than five cards
(named evaluate underscore partial there): rank repetitions only. -/
def evaluatePartial (cards : List Card) : HandEvaluation :=
  if cards.isEmpty then
    { rank := .highCard, kickers := [], description := "No cards" }
  else
    match (ranksWithCount cards 4).head? with
    | some r =>
      { rank := .fourOfAKind, kickers := [r], description := "Four of a kind, " ++ rankName r }
    | none =>
      match (ranksWithCount cards 3).head? with
      | some t =>
        { rank := .threeOfAKind, kickers := [t], description := "Three of a kind, " ++ rankName t }
      | none =>
        let pairRanks := ranksWithCount cards 2
        if 2 ≤ pairRanks.length then
          { rank := .twoPair, kickers := (maxRankOpt pairRanks).toList, description := "Two pair" }
        else
          match maxRankOpt pairRanks with
          | some p =>
            { rank := .pair, kickers := [p], description := "Pair of " ++ rankName p }
          | none =>
            match sortRanksDesc (cards.map fun c => c.rank) with
            | r :: rest =>
              { rank := .highCard, kickers := r :: rest, description := rankName r ++ " high" }
            | [] =>
              { rank := .highCard, kickers := [], description := "No cards" }

/-- evaluate_five from hand.rs: full five-card evaluation in the source
priority order. -/
def evaluate_five (cards : List Card) : HandEvaluation :=
  let is_flush := Suit.all.any fun st => 5 ≤ countSuit cards st
  let ranks := dedupAdj (sortRanksDesc (cards.map fun c => c.rank))
  let straight_high := check_straight ranks
  let afterStraightFlush : HandEvaluation :=
    match (ranksWithCount cards 4).head? with
    | some r =>
      { rank := .fourOfAKind, kickers := [r], description := "Four of a kind, " ++ rankName r }
    | none =>
      let trips := (ranksWithCount cards 3).head?
      let pair := (ranksWithCount cards 2).head?
      match trips, pair with
      | some t, some p =>
        { rank := .fullHouse, kickers := [t, p],
          description := "Full house, " ++ rankName t ++ " full of " ++ rankName p }
      | _, _ =>
        if is_flush then
          { rank := .flush, kickers := ranks,
            description := rankName ((maxRankOpt (cards.map fun c => c.rank)).getD .two) ++ " high flush" }
        else
          match straight_high with
          | some high =>
            { rank := .straight, kickers := [high], description := rankName high ++ " high straight" }
          | none =>
            match trips with
            | some t =>
              { rank := .threeOfAKind, kickers := [t],
                description := "Three of a kind, " ++ rankName t }
            | none =>
              match sortRanksDesc (ranksWithCount cards 2) with
              | hp :: lp :: rest =>
                { rank := .twoPair, kickers := hp :: lp :: rest,
                  description := "Two pair, " ++ rankName hp ++ " and " ++ rankName lp }
              | [p] =>
                { rank := .pair, kickers := [p], description := "Pair of " ++ rankName p }
              | [] =>
                { rank := .highCard, kickers := ranks,
                  description := rankName ((maxRankOpt (cards.map fun c => c.rank)).getD .two) ++ " high" }
  match is_flush, straight_high with
  | true, some high =>
    { rank := .straightFlush, kickers := [high],
      description := rankName high ++ " high straight flush" }
  | _, _ => afterStraightFlush

/-- combinations from hand.rs. The source loops i over the slice prepending
cards[i] to each (k-1)-combination of the suffix after i; iteration i = 0
gives the first block and iterations i >= 1 are exactly the body of the
recursive call on the tail, so the structural form below produces the same
list in the same order (the early length guard of the source only returns
the empty list that the recursion produces anyway). -/
def combinations : List Card → Nat → List (List Card)
  | _, 0 => [[]]
  | [], _ + 1 => []
  | c :: rest, k + 1 =>
    ((combinations rest k).map fun combo => c :: combo) ++ combinations rest (k + 1)

/-- Iterator::max_by of the Rust core library: fold keeping the later
element unless the accumulated one compares greater (so the last of equal
maxima is kept). -/
def maxByEval (l : List HandEvaluation) : Option HandEvaluation :=
  l.foldl
    (fun acc x =>
      match acc with
      | none => some x
      | some a => if cmpEval a x = .gt then some a else some x)
    none

/-- evaluate_hand from hand.rs. -/
def evaluate_hand (hole_cards board : List Card) : HandEvaluation :=
  let all_cards := hole_cards ++ board
  if all_cards.length < 5 then evaluatePartial all_cards
  else
    match maxByEval ((combinations all_cards 5).map evaluate_five) with
    | some e => e
    | none => { rank := .highCard, kickers := [], description := "Unknown" }

/-- Action enum from actions.rs. -/
inductive Action
  | fold
  | check
  | call (amount : Nat)
  | bet (amount : Nat)
  | raise (amount : Nat)
  | allIn (amount : Nat)
deriving DecidableEq

/-- AvailableActions struct from actions.rs. -/
structure AvailableActions where
  can_fold : Bool
  can_check : Bool
  can_call : Option Nat
  min_bet : Option Nat
  min_raise : Option Nat
  max_raise : Nat
deriving DecidableEq

/-- AvailableActions::new from actions.rs. -/
def AvailableActions.new (to_call min_raise_to player_stack big_blind : Nat) :
    AvailableActions :=
  let can_check := to_call = 0
  let can_call := if 0 < to_call ∧ to_call < player_stack then some to_call else none
  let min_bet := if can_check ∧ 0 < player_stack then some (min big_blind player_stack) else none
  let min_raise := if 0 < to_call ∧ min_raise_to < player_stack then some min_raise_to else none
  { can_fold := 0 < to_call
    can_check := can_check
    can_call := can_call
    min_bet := min_bet
    min_raise := min_raise
    max_raise := player_stack }

/-- Player enum from state.rs. -/
inductive Player
  | human
  | bot
deriving DecidableEq

/-- Player::opponent from state.rs. -/
def Player.opponent : Player → Player
  | .human => .bot
  | .bot => .human

/-- GamePhase enum from state.rs. -/
inductive GamePhase
  | preflop
  | flop
  | turn
  | river
  | showdown
  | handComplete
  | sessionEnd
  | summary
deriving DecidableEq

/-- BIG_BLIND constant from state.rs. -/
def BIG_BLIND : Nat := 2

/-- SMALL_BLIND constant from state.rs. -/
def SMALL_BLIND : Nat := 1

/-- Deck struct from deck.rs: remaining cards are drawn from cards at index. -/
structure Deck where
  cards : List Card
  index : Nat
deriving DecidableEq

/-- Deck::new from deck.rs: the 52 distinct cards in suit-major order. -/
def Deck.fresh : Deck :=
  { cards := (Suit.all.map fun st => Rank.all.map fun r => { rank := r, suit := st }).flatten
    index := 0 }

/-- Deck::deal from deck.rs. -/
def Deck.deal (d : Deck) : Option Card × Deck :=
  if h : d.index < d.cards.length then
    (some (d.cards.get ⟨d.index, h⟩), { d with index := d.index + 1 })
  else
    (none, d)

/-- Deck::deal_n from deck.rs: best effort, short when the deck runs out. -/
def Deck.dealN : Deck → Nat → List Card × Deck
  | d, 0 => ([], d)
  | d, n + 1 =>
    let (c, d1) := d.deal
    let (cs, d2) := d1.dealN n
    (match c with
     | some card => card :: cs
     | none => cs, d2)

/-- ShowdownResult struct from state.rs. -/
structure ShowdownResult where
  winner : Option Player
  player_hand : HandEvaluation
  bot_hand : HandEvaluation
  pot_won : Nat
deriving DecidableEq

/-- GameState struct from state.rs. -/
structure GameState where
  phase : GamePhase
  deck : Deck
  player_cards : List Card
  bot_cards : List Card
  board : List Card
  pot : Nat
  player_stack : Nat
  bot_stack : Nat
  player_bet : Nat
  bot_bet : Nat
  to_act : Player
  button : Player
  last_aggressor : Option Player
  last_raise_size : Nat
  hand_number : Nat
  starting_stack : Nat
  hands_played : Nat
  hands_won : Nat
  biggest_pot_won : Nat
  biggest_pot_lost : Nat
  last_action : Option (Player × Action)
  showdown_result : Option ShowdownResult
  actions_this_street : Nat
deriving DecidableEq

/-- Wrapping u32 subtraction: release-mode semantics of the unchecked
subtractions in apply_action (exact when the minuend is at least the
subtrahend, as it is under legal driving). -/
def sub32 (a b : Nat) : Nat :=
  (a + 4294967296 - b) % 4294967296

/-- GameState::add_chips from state.rs: move the amount, clamped to the
stack, from the stack into the bet and the pot. -/
def add_chips (s : GameState) (player : Player) (amount : Nat) : GameState :=
  match player with
  | .human =>
    let actual := min amount s.player_stack
    { s with player_stack := s.player_stack - actual
             player_bet := s.player_bet + actual
             pot := s.pot + actual }
  | .bot =>
    let actual := min amount s.bot_stack
    { s with bot_stack := s.bot_stack - actual
             bot_bet := s.bot_bet + actual
             pot := s.pot + actual }

/-- GameState::current_bet from state.rs. -/
def current_bet (s : GameState) : Player → Nat
  | .human => s.player_bet
  | .bot => s.bot_bet

/-- GameState::max_bet from state.rs. -/
def max_bet (s : GameState) : Nat :=
  max s.player_bet s.bot_bet

/-- GameState::handle_fold from state.rs. -/
def handle_fold (s : GameState) (folder : Player) : GameState :=
  let winner := folder.opponent
  let pot := s.pot
  let s1 :=
    match winner with
    | .human =>
      { s with player_stack := s.player_stack + pot
               hands_won := s.hands_won + 1
               biggest_pot_won := if s.biggest_pot_won < pot then pot else s.biggest_pot_won }
    | .bot =>
      { s with bot_stack := s.bot_stack + pot
               biggest_pot_lost := if s.biggest_pot_lost < pot then pot else s.biggest_pot_lost }
  { s1 with pot := 0
            hands_played := s1.hands_played + 1
            phase := .handComplete }

/-- GameState::is_betting_round_complete from state.rs. -/
def is_betting_round_complete (s : GameState) : Bool :=
  if s.player_stack = 0 ∨ s.bot_stack = 0 then
    s.player_bet == s.bot_bet
  else if s.player_bet ≠ s.bot_bet then
    false
  else if s.phase = .preflop ∧ s.last_aggressor = none then
    match s.last_action with
    | some (actor, act) => decide (actor = s.button.opponent) && decide (act = Action.check)
    | none => false
  else if s.last_aggressor = none then
    decide (2 ≤ s.actions_this_street)
  else
    true

/-- GameState::resolve_showdown from state.rs. -/
def resolve_showdown (s : GameState) : GameState :=
  let player_eval := evaluate_hand s.player_cards s.board
  let bot_eval := evaluate_hand s.bot_cards s.board
  let winner : Option Player :=
    match cmpHandRank player_eval.rank bot_eval.rank with
    | .gt => some .human
    | .lt => some .bot
    | .eq =>
      match cmpKickers player_eval.kickers bot_eval.kickers with
      | .gt => some .human
      | .lt => some .bot
      | .eq => none
  let pot := s.pot
  let s1 :=
    match winner with
    | some .human =>
      { s with player_stack := s.player_stack + pot
               hands_won := s.hands_won + 1
               biggest_pot_won := if s.biggest_pot_won < pot then pot else s.biggest_pot_won }
    | some .bot =>
      { s with bot_stack := s.bot_stack + pot
               biggest_pot_lost := if s.biggest_pot_lost < pot then pot else s.biggest_pot_lost }
    | none =>
      let half := pot / 2
      let remainder := pot % 2
      if s.button = Player.human then
        { s with player_stack := s.player_stack + half
                 bot_stack := s.bot_stack + half + remainder }
      else
        { s with player_stack := s.player_stack + half + remainder
                 bot_stack := s.bot_stack + half }
  { s1 with showdown_result := some { winner := winner, player_hand := player_eval,
                                      bot_hand := bot_eval, pot_won := pot }
            pot := 0
            hands_played := s1.hands_played + 1
            phase := .showdown }

/-- GameState::advance_phase from state.rs: reset the street state, then
deal and move on (the River case resolves the showdown instead). -/
def advance_phase (s : GameState) : GameState :=
  let s1 := { s with player_bet := 0, bot_bet := 0, last_aggressor := none,
                     actions_this_street := 0 }
  match s1.phase with
  | .preflop =>
    let dealt := s1.deck.dealN 3
    { s1 with board := s1.board ++ dealt.1, phase := .flop, deck := dealt.2,
              to_act := s1.button.opponent }
  | .flop =>
    let dealt := s1.deck.dealN 1
    { s1 with board := s1.board ++ dealt.1, phase := .turn, deck := dealt.2,
              to_act := s1.button.opponent }
  | .turn =>
    let dealt := s1.deck.dealN 1
    { s1 with board := s1.board ++ dealt.1, phase := .river, deck := dealt.2,
              to_act := s1.button.opponent }
  | .river => resolve_showdown s1
  | _ => s1

/-- Tail of GameState::apply_action for every non-fold action: advance the
phase when the betting round is complete, otherwise pass the turn. -/
def finish_action (s : GameState) (player : Player) : GameState :=
  if is_betting_round_complete s then advance_phase s
  else { s with to_act := player.opponent }

/-- GameState::apply_action from state.rs. -/
def apply_action (s : GameState) (player : Player) (action : Action) : GameState :=
  let s0 := { s with last_action := some (player, action),
                     actions_this_street := (s.actions_this_street + 1) % 256 }
  match action with
  | .fold => handle_fold s0 player
  | .check => finish_action s0 player
  | .call amount => finish_action (add_chips s0 player amount) player
  | .bet amount | .raise amount =>
    let current := current_bet s0 player
    let to_add := sub32 amount current
    let old_max := max_bet s0
    let s1 := add_chips s0 player to_add
    let s2 := { s1 with last_aggressor := some player,
                        last_raise_size := sub32 amount old_max }
    finish_action s2 player
  | .allIn amount =>
    let current := current_bet s0 player
    let to_add := sub32 amount current
    let old_max := max_bet s0
    let s1 := add_chips s0 player to_add
    let s2 :=
      if old_max < amount then
        { s1 with last_aggressor := some player,
                  last_raise_size := sub32 amount old_max }
      else s1
    finish_action s2 player

/-- GameState::start_new_hand from state.rs. The source builds a fresh deck
and shuffles it with the thread rng; the shuffled order is the parameter. -/
def start_new_hand (s : GameState) (shuffled : List Card) : GameState :=
  let d0 : Deck := { cards := shuffled, index := 0 }
  let deal1 := d0.dealN 2
  let deal2 := deal1.2.dealN 2
  let button := s.button.opponent
  let s1 := { s with
    hand_number := s.hand_number + 1
    button := button
    phase := .preflop
    deck := deal2.2
    player_cards := deal1.1
    bot_cards := deal2.1
    board := []
    pot := 0
    player_bet := 0
    bot_bet := 0
    last_aggressor := none
    last_raise_size := BIG_BLIND
    last_action := none
    showdown_result := none
    actions_this_street := 0 }
  match button with
  | .human =>
    let sb := min SMALL_BLIND s1.player_stack
    let bb := min BIG_BLIND s1.bot_stack
    { s1 with player_stack := s1.player_stack - sb
              player_bet := sb
              bot_stack := s1.bot_stack - bb
              bot_bet := bb
              pot := sb + bb
              to_act := .human }
  | .bot =>
    let sb := min SMALL_BLIND s1.bot_stack
    let bb := min BIG_BLIND s1.player_stack
    { s1 with bot_stack := s1.bot_stack - sb
              bot_bet := sb
              player_stack := s1.player_stack - bb
              player_bet := bb
              pot := sb + bb
              to_act := .bot }

/-- GameState::new from state.rs (the session constructor): the first hand
starts immediately; the shuffled order for that hand is the parameter. -/
def GameState.new (starting_stack_bb : Nat) (shuffled : List Card) : GameState :=
  let starting_stack := starting_stack_bb * BIG_BLIND
  start_new_hand
    { phase := .preflop
      deck := Deck.fresh
      player_cards := []
      bot_cards := []
      board := []
      pot := 0
      player_stack := starting_stack
      bot_stack := starting_stack
      player_bet := 0
      bot_bet := 0
      to_act := .human
      button := .bot
      last_aggressor := none
      last_raise_size := BIG_BLIND
      hand_number := 0
      starting_stack := starting_stack
      hands_played := 0
      hands_won := 0
      biggest_pot_won := 0
      biggest_pot_lost := 0
      last_action := none
      showdown_result := none
      actions_this_street := 0 }
    shuffled

/-- GameState::amount_to_call from state.rs. -/
def amount_to_call (s : GameState) (player : Player) : Nat :=
  let current := current_bet s player
  let mx := max_bet s
  if current < mx then mx - current else 0

/-- GameState::available_actions from state.rs. -/
def available_actions (s : GameState) : AvailableActions :=
  let stack :=
    match s.to_act with
    | .human => s.player_stack
    | .bot => s.bot_stack
  let to_call := amount_to_call s s.to_act
  let min_raise_to := max_bet s + max s.last_raise_size BIG_BLIND
  AvailableActions.new to_call min_raise_to stack BIG_BLIND

/-- Sum of chips visible in the engine state: both stacks plus the pot. -/
def totalChips (s : GameState) : Nat :=
  s.player_stack + s.bot_stack + s.pot

/-- Stack of the given player. -/
def stackOf (s : GameState) : Player → Nat
  | .human => s.player_stack
  | .bot => s.bot_stack

/-- Phases in which actions are applied (the betting streets, the Some
cases of the From GamePhase conversion in state.rs). -/
def isStreetPhase : GamePhase → Bool
  | .preflop => true
  | .flop => true
  | .turn => true
  | .river => true
  | _ => false

/-- States a session can reach: the constructor starts the first hand; a
driver applies an action (any action: legality is not needed for chip
conservation) while a betting street is open; a new hand starts once the
previous one has been settled by fold or showdown. Every shuffled order is
allowed, so all runs of the program are covered. -/
inductive Reach (bb0 : Nat) : GameState → Prop
  | init (d : List Card) : Reach bb0 (GameState.new bb0 d)
  | act {s : GameState} (p : Player) (a : Action) (hs : isStreetPhase s.phase = true) :
      Reach bb0 s → Reach bb0 (apply_action s p a)
  | nextHand {s : GameState} (d : List Card)
      (h : s.phase = .handComplete ∨ s.phase = .showdown) :
      Reach bb0 s → Reach bb0 (start_new_hand s d)

/-- Chip invariant carried through a session: the fixed total, and a pot
already moved into the stacks whenever the hand is settled. -/
def ChipInv (total : Nat) (s : GameState) : Prop :=
  totalChips s = total ∧
    ((s.phase = .handComplete ∨ s.phase = .showdown) → s.pot = 0)

/-- The round-completion predicate exactly as the specification states it:
with a zero stack, equal bets suffice; otherwise equal bets and, with no
aggressor, the big-blind check preflop or two actions postflop. -/
def claimRoundComplete (s : GameState) : Prop :=
  if s.player_stack = 0 ∨ s.bot_stack = 0 then
    s.player_bet = s.bot_bet
  else
    s.player_bet = s.bot_bet ∧
      (if s.phase = .preflop ∧ s.last_aggressor = none then
        s.last_action = some (s.button.opponent, Action.check)
      else if s.last_aggressor = none then
        2 ≤ s.actions_this_street
      else
        True)

/-- A betting street is never a settled phase. -/
lemma street_not_settled {ph : GamePhase} (h : isStreetPhase ph = true) :
    ¬(ph = .handComplete ∨ ph = .showdown) := by
  cases ph <;> simp_all [isStreetPhase]

lemma cmpHandRank_refl (x : HandRank) : cmpHandRank x x = .eq := by
  cases x <;> decide

lemma cmpRank_refl (x : Rank) : cmpRank x x = .eq := by
  cases x <;> decide

lemma cmpKickers_refl (k : List Rank) : cmpKickers k k = .eq := by
  induction k with
  | nil => rfl
  | cons x xs ih => simp [cmpKickers, cmpRank_refl, ih, Ordering.then]

/-- Frame and settlement facts about resolve_showdown: chips conserved,
phase Showdown, pot emptied, street-betting fields untouched. -/
lemma resolve_showdown_spec (s : GameState) :
    totalChips (resolve_showdown s) = totalChips s ∧
    (resolve_showdown s).phase = .showdown ∧
    (resolve_showdown s).pot = 0 ∧
    (resolve_showdown s).player_bet = s.player_bet ∧
    (resolve_showdown s).bot_bet = s.bot_bet ∧
    (resolve_showdown s).last_aggressor = s.last_aggressor ∧
    (resolve_showdown s).actions_this_street = s.actions_this_street ∧
    (resolve_showdown s).last_raise_size = s.last_raise_size := by
  unfold resolve_showdown
  split <;> simp [totalChips] <;> split <;> simp <;> omega

/-- handle_fold conserves chips, empties the pot and completes the hand. -/
lemma handle_fold_spec (s : GameState) (f : Player) :
    totalChips (handle_fold s f) = totalChips s ∧
    (handle_fold s f).phase = .handComplete ∧
    (handle_fold s f).pot = 0 := by
  cases f <;> simp [handle_fold, Player.opponent, totalChips] <;> omega

/-- add_chips conserves chips and leaves the phase alone. -/
lemma add_chips_spec (s : GameState) (p : Player) (amt : Nat) :
    totalChips (add_chips s p amt) = totalChips s ∧
    (add_chips s p amt).phase = s.phase := by
  cases p <;> simp [add_chips, totalChips] <;> omega

/-- advance_phase keeps the chip invariant from any open street. -/
lemma advance_phase_inv (T : Nat) (s : GameState) (hs : isStreetPhase s.phase = true)
    (ht : totalChips s = T) : ChipInv T (advance_phase s) := by
  cases hp : s.phase <;> simp [hp, isStreetPhase] at hs <;>
    simp only [advance_phase, hp] <;>
    first
      | exact ⟨by simpa [totalChips] using ht, by simp⟩
      | exact ⟨by rw [(resolve_showdown_spec _).1]; simpa [totalChips] using ht,
               fun _ => (resolve_showdown_spec _).2.2.1⟩

/-- The round-completion tail of apply_action keeps the chip invariant. -/
lemma finish_action_inv (T : Nat) (s : GameState) (p : Player)
    (hs : isStreetPhase s.phase = true) (ht : totalChips s = T) :
    ChipInv T (finish_action s p) := by
  unfold finish_action
  split
  · exact advance_phase_inv T s hs ht
  · exact ⟨by simpa [totalChips] using ht,
           fun hc => absurd hc (by simpa using street_not_settled hs)⟩

/-- Transfer of finish_action_inv along a state with the same phase and total. -/
lemma finish_action_inv_of (T : Nat) (s1 s : GameState) (p : Player)
    (hph : s1.phase = s.phase) (htc : totalChips s1 = totalChips s)
    (hs : isStreetPhase s.phase = true) (ht : totalChips s = T) :
    ChipInv T (finish_action s1 p) :=
  finish_action_inv T s1 p (by rw [hph]; exact hs) (htc.trans ht)

/-- apply_action keeps the chip invariant from any open street. -/
lemma apply_action_inv (T : Nat) (s : GameState) (p : Player) (a : Action)
    (hs : isStreetPhase s.phase = true) (ht : totalChips s = T) :
    ChipInv T (apply_action s p a) := by
  cases a <;> simp only [apply_action]
  case fold =>
    refine ⟨?_, fun _ => (handle_fold_spec _ p).2.2⟩
    rw [(handle_fold_spec _ p).1]
    exact ht
  case check =>
    exact finish_action_inv_of T _ s p rfl rfl hs ht
  case call amount =>
    exact finish_action_inv_of T _ s p (add_chips_spec _ p _).2 (add_chips_spec _ p _).1 hs ht
  case bet amount =>
    exact finish_action_inv_of T _ s p (add_chips_spec _ p _).2 (add_chips_spec _ p _).1 hs ht
  case raise amount =>
    exact finish_action_inv_of T _ s p (add_chips_spec _ p _).2 (add_chips_spec _ p _).1 hs ht
  case allIn amount =>
    split
    · exact finish_action_inv_of T _ s p (add_chips_spec _ p _).2 (add_chips_spec _ p _).1 hs ht
    · exact finish_action_inv_of T _ s p (add_chips_spec _ p _).2 (add_chips_spec _ p _).1 hs ht

/-- start_new_hand moves the blinds out of the stacks into the pot: the
new total of stacks and pot is exactly the old stacks (the pot field is
overwritten, so this equals the old total when the pot was empty). -/
lemma start_new_hand_spec (s : GameState) (d : List Card) :
    totalChips (start_new_hand s d) = s.player_stack + s.bot_stack ∧
    (start_new_hand s d).phase = .preflop ∧
    (start_new_hand s d).last_raise_size = BIG_BLIND := by
  cases hb : s.button <;>
    simp [start_new_hand, hb, Player.opponent, totalChips] <;> omega

/-- Every reachable state of a session satisfies the chip invariant. -/
lemma reach_chipInv {bb0 : Nat} {s : GameState} (h : Reach bb0 s) :
    ChipInv (2 * (bb0 * BIG_BLIND)) s := by
  induction h with
  | init d =>
    have hnew : GameState.new bb0 d = start_new_hand
      { phase := .preflop, deck := Deck.fresh, player_cards := [], bot_cards := [],
        board := [], pot := 0, player_stack := bb0 * BIG_BLIND, bot_stack := bb0 * BIG_BLIND,
        player_bet := 0, bot_bet := 0, to_act := .human, button := .bot,
        last_aggressor := none, last_raise_size := BIG_BLIND, hand_number := 0,
        starting_stack := bb0 * BIG_BLIND, hands_played := 0, hands_won := 0,
        biggest_pot_won := 0, biggest_pot_lost := 0, last_action := none,
        showdown_result := none, actions_this_street := 0 } d := rfl
    obtain ⟨h1, h2, _⟩ := start_new_hand_spec
      { phase := .preflop, deck := Deck.fresh, player_cards := [], bot_cards := [],
        board := [], pot := 0, player_stack := bb0 * BIG_BLIND, bot_stack := bb0 * BIG_BLIND,
        player_bet := 0, bot_bet := 0, to_act := .human, button := .bot,
        last_aggressor := none, last_raise_size := BIG_BLIND, hand_number := 0,
        starting_stack := bb0 * BIG_BLIND, hands_played := 0, hands_won := 0,
        biggest_pot_won := 0, biggest_pot_lost := 0, last_action := none,
        showdown_result := none, actions_this_street := 0 } d
    refine ⟨?_, fun hc => ?_⟩
    · rw [hnew, h1]; simp; ring
    · rw [hnew, h2] at hc; simp at hc
  | act p a hsp hprev ih => exact apply_action_inv _ _ p a hsp ih.1
  | nextHand d hset hprev ih =>
    obtain ⟨h1, h2, _⟩ := start_new_hand_spec _ d
    refine ⟨?_, fun hc => ?_⟩
    · rw [h1]
      have hpot := ih.2 hset
      have htot := ih.1
      simp [totalChips] at htot
      omega
    · rw [h2] at hc; simp at hc

/-- advance_phase resets the street-betting fields and leaves
last_raise_size alone, whatever the phase. -/
lemma advance_phase_frame (s : GameState) :
    (advance_phase s).player_bet = 0 ∧
    (advance_phase s).bot_bet = 0 ∧
    (advance_phase s).last_aggressor = none ∧
    (advance_phase s).actions_this_street = 0 ∧
    (advance_phase s).last_raise_size = s.last_raise_size := by
  cases hp : s.phase <;> simp only [advance_phase, hp] <;>
    first
      | simp
      | exact ⟨(resolve_showdown_spec _).2.2.2.1, (resolve_showdown_spec _).2.2.2.2.1,
          (resolve_showdown_spec _).2.2.2.2.2.1, (resolve_showdown_spec _).2.2.2.2.2.2.1,
          (resolve_showdown_spec _).2.2.2.2.2.2.2⟩

/-- A mid-hand state on the flop used for the concrete scenarios below:
both players have 100 chips behind, 4 chips in the pot, no street bets yet. -/
def flopState : GameState :=
  { phase := .flop, deck := { cards := [], index := 0 }, player_cards := [], bot_cards := [],
    board := [], pot := 4, player_stack := 100, bot_stack := 100, player_bet := 0, bot_bet := 0,
    to_act := .human, button := .human, last_aggressor := none, last_raise_size := BIG_BLIND,
    hand_number := 1, starting_stack := 200, hands_played := 0, hands_won := 0,
    biggest_pot_won := 0, biggest_pot_lost := 0, last_action := none, showdown_result := none,
    actions_this_street := 0 }

/-- flopState after the bot has bet 20 on the street: the human owes 20. -/
def owedState : GameState :=
  { flopState with bot_bet := 20, bot_stack := 80, pot := 24 }

/-- A showdown state with an odd pot of 101, empty stacks, the human on
the button, and identical (empty-input) hand evaluations for both players. -/
def tieState : GameState :=
  { flopState with phase := .river, pot := 101, player_stack := 0, bot_stack := 0 }

/-- C1. Chip conservation: along any run of the betting state machine
(blind posting at hand start, any applied action, street advance, fold
settlement and showdown settlement including the split pot), the sum
player_stack + bot_stack + pot equals the fixed session total of
2 * starting_stack chips. -/
theorem chip_conservation (bb0 : Nat) (s : GameState) (h : Reach bb0 s) :
    totalChips s = 2 * (bb0 * BIG_BLIND) :=
  (reach_chipInv h).1

/-- Witness for C1 at a concrete reachable state: a fresh 10-big-blind
session holds 40 chips across stacks and pot. -/
theorem chip_conservation_witness :
    totalChips (GameState.new 10 []) = 2 * (10 * BIG_BLIND) :=
  chip_conservation 10 (GameState.new 10 []) (Reach.init [])

/-- C3. Minimum-raise law: whenever available_actions offers a raise, the
raise-to floor equals the street high bet plus the larger of the big blind
and the last raise size; in the concrete scenario, after a bet to 10 the
floor is 20, and after a following raise to 30 it is 50. -/
theorem minimum_raise_law :
    (∀ (s : GameState) (v : Nat),
      (available_actions s).min_raise = some v →
      v = max_bet s + max s.last_raise_size BIG_BLIND) ∧
    (available_actions (apply_action flopState .human (.bet 10))).min_raise = some 20 ∧
    (available_actions
      (apply_action (apply_action flopState .human (.bet 10)) .bot (.raise 30))).min_raise =
      some 50 := by
  refine ⟨?_, by decide, by decide⟩
  intro s v h
  simp only [available_actions, AvailableActions.new] at h
  split at h
  · exact (Option.some.inj h).symm
  · exact absurd h (by simp)

/-- C4. The round-completion test of the code agrees, on every state, with
the case split stated in the specification: a zero stack needs only equal
bets; otherwise equal bets and, without an aggressor, the big-blind check
preflop or at least two actions postflop. -/
theorem round_completion_spec (s : GameState) :
    is_betting_round_complete s = true ↔ claimRoundComplete s := by
  unfold is_betting_round_complete claimRoundComplete
  by_cases h1 : s.player_stack = 0 ∨ s.bot_stack = 0
  · simp [h1]
  · by_cases hb : s.player_bet = s.bot_bet
    · by_cases hc : s.phase = .preflop ∧ s.last_aggressor = none
      · cases hla : s.last_action with
        | none => simp [h1, hb, hc, hla]
        | some pa =>
          obtain ⟨actor, act⟩ := pa
          simp [h1, hb, hc, hla, Prod.ext_iff, and_comm]
      · by_cases hd : s.last_aggressor = none
        · have hpre : ¬s.phase = GamePhase.preflop := fun hph => hc ⟨hph, hd⟩
          simp [h1, hb, hc, hd, hpre]
        · simp [h1, hb, hc, hd]
    · simp [h1, hb]

/-- C5. Split-pot parity: when both showdown evaluations agree on category
and kickers, the recorded winner is none and the pot is split with the odd
chip going to the out-of-position (non-button) player; a pot of 101 gives
51 to the non-button bot and 50 to the button human. -/
theorem split_pot_parity :
    (∀ s : GameState,
      (evaluate_hand s.player_cards s.board).rank = (evaluate_hand s.bot_cards s.board).rank →
      (evaluate_hand s.player_cards s.board).kickers =
        (evaluate_hand s.bot_cards s.board).kickers →
      (∃ r, (resolve_showdown s).showdown_result = some r ∧ r.winner = none) ∧
      (resolve_showdown s).pot = 0 ∧
      (if s.button = Player.human then
        (resolve_showdown s).bot_stack = s.bot_stack + s.pot / 2 + s.pot % 2 ∧
        (resolve_showdown s).player_stack = s.player_stack + s.pot / 2
      else
        (resolve_showdown s).player_stack = s.player_stack + s.pot / 2 + s.pot % 2 ∧
        (resolve_showdown s).bot_stack = s.bot_stack + s.pot / 2)) ∧
    ((resolve_showdown tieState).bot_stack = 51 ∧
     (resolve_showdown tieState).player_stack = 50) := by
  refine ⟨?_, by decide, by decide⟩
  intro s hr hk
  simp only [resolve_showdown, hr, hk, cmpHandRank_refl, cmpKickers_refl]
  refine ⟨⟨_, rfl, rfl⟩, trivial, ?_⟩
  split <;> simp_all

/-- C6. Wheel ordering: A-2-3-4-5 of mixed suits evaluates to a Straight
with single kicker Five, 2-3-4-5-6 to a Straight with kicker Six, the
six-high straight compares strictly greater, and Ace compares above Two
in the kicker order. -/
theorem wheel_ordering :
    (evaluate_hand [⟨.ace, .spades⟩, ⟨.two, .hearts⟩]
        [⟨.three, .diamonds⟩, ⟨.four, .clubs⟩, ⟨.five, .spades⟩]).rank = .straight ∧
    (evaluate_hand [⟨.ace, .spades⟩, ⟨.two, .hearts⟩]
        [⟨.three, .diamonds⟩, ⟨.four, .clubs⟩, ⟨.five, .spades⟩]).kickers = [.five] ∧
    (evaluate_hand [⟨.two, .spades⟩, ⟨.three, .hearts⟩]
        [⟨.four, .diamonds⟩, ⟨.five, .clubs⟩, ⟨.six, .spades⟩]).rank = .straight ∧
    (evaluate_hand [⟨.two, .spades⟩, ⟨.three, .hearts⟩]
        [⟨.four, .diamonds⟩, ⟨.five, .clubs⟩, ⟨.six, .spades⟩]).kickers = [.six] ∧
    cmpEval
      (evaluate_hand [⟨.two, .spades⟩, ⟨.three, .hearts⟩]
        [⟨.four, .diamonds⟩, ⟨.five, .clubs⟩, ⟨.six, .spades⟩])
      (evaluate_hand [⟨.ace, .spades⟩, ⟨.two, .hearts⟩]
        [⟨.three, .diamonds⟩, ⟨.four, .clubs⟩, ⟨.five, .spades⟩]) = .gt ∧
    cmpRank .ace .two = .gt := by
  decide

/-- C7. Silent clamping: add_chips moves exactly the requested amount
capped at the stack (never more than the actor has), and apply_action
completes on invalid amounts, as the concrete undersized call, undersized
raise and oversized bet show (the oversized bet charges exactly the 100
chips behind and conserves the total). -/
theorem silent_clamping :
    (∀ (s : GameState) (p : Player) (amt : Nat),
      stackOf (add_chips s p amt) p = stackOf s p - min amt (stackOf s p) ∧
      (add_chips s p amt).pot = s.pot + min amt (stackOf s p) ∧
      current_bet (add_chips s p amt) p = current_bet s p + min amt (stackOf s p) ∧
      min amt (stackOf s p) ≤ stackOf s p) ∧
    (apply_action owedState .human (.call 5)).player_stack = 95 ∧
    (apply_action owedState .human (.raise 25)).player_stack = 75 ∧
    (apply_action flopState .human (.bet 1000)).player_stack = 0 ∧
    (apply_action flopState .human (.bet 1000)).pot = 104 ∧
    totalChips (apply_action flopState .human (.bet 1000)) = totalChips flopState := by
  refine ⟨?_, by decide, by decide, by decide, by decide, by decide⟩
  intro s p amt
  cases p <;>
    simp [add_chips, stackOf, current_bet, Nat.min_le_right]

/-- C8. Fold settlement: folding in any phase immediately hands the whole
pot to the opponent, empties the pot and completes the hand, with board,
deck, hole cards and showdown result untouched. -/
theorem fold_settlement (s : GameState) (p : Player) :
    (apply_action s p .fold).phase = .handComplete ∧
    (apply_action s p .fold).pot = 0 ∧
    stackOf (apply_action s p .fold) p.opponent = stackOf s p.opponent + s.pot ∧
    stackOf (apply_action s p .fold) p = stackOf s p ∧
    (apply_action s p .fold).board = s.board ∧
    (apply_action s p .fold).deck = s.deck ∧
    (apply_action s p .fold).showdown_result = s.showdown_result ∧
    (apply_action s p .fold).player_cards = s.player_cards ∧
    (apply_action s p .fold).bot_cards = s.bot_cards := by
  cases p <;> simp [apply_action, handle_fold, Player.opponent, stackOf]

/-- C9. Evaluator totality on empty and short input: zero cards give the
minimal High Card evaluation with no kickers, and any input of fewer than
five cards is answered by the rank-repetition estimate. -/
theorem evaluator_total_on_empty :
    evaluate_hand [] [] =
      { rank := .highCard, kickers := [], description := "No cards" } ∧
    ∀ hole_cards board : List Card, (hole_cards ++ board).length < 5 →
      evaluate_hand hole_cards board = evaluatePartial (hole_cards ++ board) := by
  refine ⟨by decide, ?_⟩
  intro hole board h
  simp only [evaluate_hand]
  rw [if_pos h]

/-- Witness for C9: one card is answered by the partial estimate. -/
theorem evaluator_total_on_empty_witness :
    evaluate_hand [⟨.ace, .spades⟩] [] = evaluatePartial ([⟨.ace, .spades⟩] ++ []) :=
  evaluator_total_on_empty.2 [⟨.ace, .spades⟩] [] (by decide)

/-- C10. Frame of the street advance: both street bets, the aggressor and
the action counter are reset, but last_raise_size is untouched (also
through showdown resolution), still feeds the raise-to floor of
available_actions, is overwritten by the next bet or raise, and is reset
to the big blind only when a new hand starts. -/
theorem street_advance_frame :
    (∀ s : GameState,
      (advance_phase s).player_bet = 0 ∧
      (advance_phase s).bot_bet = 0 ∧
      (advance_phase s).last_aggressor = none ∧
      (advance_phase s).actions_this_street = 0 ∧
      (advance_phase s).last_raise_size = s.last_raise_size) ∧
    (∀ s : GameState, ∀ d : List Card, (start_new_hand s d).last_raise_size = BIG_BLIND) ∧
    (∀ s : GameState, available_actions s =
      AvailableActions.new (amount_to_call s s.to_act)
        (max_bet s + max s.last_raise_size BIG_BLIND) (stackOf s s.to_act) BIG_BLIND) ∧
    (∀ (s : GameState) (p : Player) (amt : Nat),
      (apply_action s p (.bet amt)).last_raise_size = sub32 amt (max_bet s) ∧
      (apply_action s p (.raise amt)).last_raise_size = sub32 amt (max_bet s)) := by
  refine ⟨advance_phase_frame, fun s d => (start_new_hand_spec s d).2.2, ?_, ?_⟩
  · intro s
    cases hp : s.to_act <;> simp [available_actions, stackOf, hp]
  · intro s p amt
    constructor <;>
      (simp only [apply_action, finish_action]
       split
       · exact ((advance_phase_frame _).2.2.2.2).trans rfl
       · rfl)

lemma cmpRank_lt_iff : ∀ a b : Rank, cmpRank a b = .lt ↔ rankValue a < rankValue b := by
  decide

lemma cmpRank_gt_iff : ∀ a b : Rank, cmpRank a b = .gt ↔ rankValue b < rankValue a := by
  decide

lemma cmpRank_eq_iff : ∀ a b : Rank, cmpRank a b = .eq ↔ a = b := by
  decide

lemma ordering_then_eq_gt (o p : Ordering) :
    o.then p = .gt ↔ o = .gt ∨ (o = .eq ∧ p = .gt) := by
  cases o <;> simp [Ordering.then]

/-- Transitivity of the not-greater relation for the kicker comparison. -/
lemma cmpKickers_le_trans :
    ∀ a b c : List Rank, cmpKickers a b ≠ .gt → cmpKickers b c ≠ .gt →
      cmpKickers a c ≠ .gt := by
  intro a
  induction a with
  | nil =>
    intro b c h1 h2
    cases c <;> simp [cmpKickers]
  | cons x xs ih =>
    intro b c h1 h2
    cases b with
    | nil => exact absurd rfl h1
    | cons y ys =>
      cases c with
      | nil => exact absurd rfl h2
      | cons z zs =>
        simp only [cmpKickers, ne_eq, ordering_then_eq_gt, not_or, not_and] at h1 h2 ⊢
        obtain ⟨h1g, h1e⟩ := h1
        obtain ⟨h2g, h2e⟩ := h2
        cases ho1 : cmpRank x y with
        | gt => exact absurd ho1 h1g
        | lt =>
          cases ho2 : cmpRank y z with
          | gt => exact absurd ho2 h2g
          | lt =>
            have hxz : cmpRank x z = .lt := by
              rw [cmpRank_lt_iff] at ho1 ho2 ⊢
              omega
            exact ⟨by simp [hxz], fun he => absurd (he ▸ hxz) (by simp)⟩
          | eq =>
            have hyz : y = z := (cmpRank_eq_iff y z).mp ho2
            have hxz : cmpRank x z = .lt := hyz ▸ ho1
            exact ⟨by simp [hxz], fun he => absurd (he ▸ hxz) (by simp)⟩
        | eq =>
          have hxy : x = y := (cmpRank_eq_iff x y).mp ho1
          cases ho2 : cmpRank y z with
          | gt => exact absurd ho2 h2g
          | lt =>
            have hxz : cmpRank x z = .lt := hxy ▸ ho2
            exact ⟨by simp [hxz], fun he => absurd (he ▸ hxz) (by simp)⟩
          | eq =>
            have hyz : y = z := (cmpRank_eq_iff y z).mp ho2
            have hxz : cmpRank x z = .eq := by
              rw [cmpRank_eq_iff]
              exact hxy.trans hyz
            refine ⟨by simp [hxz], fun _ => ih ys zs (h1e ho1) (h2e ho2)⟩

lemma cmpRank_swap : ∀ a b : Rank, cmpRank a b = (cmpRank b a).swap := by
  decide

lemma ordering_then_swap (o p : Ordering) : (o.then p).swap = o.swap.then p.swap := by
  cases o <;> simp [Ordering.then, Ordering.swap]

/-- The kicker comparison is antisymmetric under swapping the arguments. -/
lemma cmpKickers_swap : ∀ a b : List Rank, cmpKickers a b = (cmpKickers b a).swap := by
  intro a
  induction a with
  | nil => intro b; cases b <;> simp [cmpKickers, Ordering.swap]
  | cons x xs ih =>
    intro b
    cases b with
    | nil => simp [cmpKickers, Ordering.swap]
    | cons y ys =>
      simp only [cmpKickers, ordering_then_swap, ← cmpRank_swap, ← ih]

lemma cmpHandRank_lt_iff :
    ∀ a b : HandRank, cmpHandRank a b = .lt ↔ handRankValue a < handRankValue b := by
  decide

lemma cmpHandRank_eq_iff : ∀ a b : HandRank, cmpHandRank a b = .eq ↔ a = b := by
  decide

lemma cmpHandRank_swap : ∀ a b : HandRank, cmpHandRank a b = (cmpHandRank b a).swap := by
  decide

/-- The full hand comparison is antisymmetric under swapping the arguments. -/
lemma cmpEval_swap (a b : HandEvaluation) : cmpEval a b = (cmpEval b a).swap := by
  simp only [cmpEval, ordering_then_swap, ← cmpHandRank_swap, ← cmpKickers_swap]

/-- Transitivity of the not-greater relation for the hand comparison. -/
lemma cmpEval_le_trans {a b c : HandEvaluation} (h1 : cmpEval a b ≠ .gt)
    (h2 : cmpEval b c ≠ .gt) : cmpEval a c ≠ .gt := by
  simp only [cmpEval, ne_eq, ordering_then_eq_gt, not_or, not_and] at h1 h2 ⊢
  obtain ⟨h1g, h1e⟩ := h1
  obtain ⟨h2g, h2e⟩ := h2
  cases ho1 : cmpHandRank a.rank b.rank with
  | gt => exact absurd ho1 h1g
  | lt =>
    cases ho2 : cmpHandRank b.rank c.rank with
    | gt => exact absurd ho2 h2g
    | lt =>
      have hac : cmpHandRank a.rank c.rank = .lt := by
        rw [cmpHandRank_lt_iff] at ho1 ho2 ⊢
        omega
      exact ⟨by simp [hac], fun he => absurd (he ▸ hac) (by simp)⟩
    | eq =>
      have hbc := (cmpHandRank_eq_iff _ _).mp ho2
      have hac : cmpHandRank a.rank c.rank = .lt := hbc ▸ ho1
      exact ⟨by simp [hac], fun he => absurd (he ▸ hac) (by simp)⟩
  | eq =>
    have hab := (cmpHandRank_eq_iff _ _).mp ho1
    cases ho2 : cmpHandRank b.rank c.rank with
    | gt => exact absurd ho2 h2g
    | lt =>
      have hac : cmpHandRank a.rank c.rank = .lt := hab ▸ ho2
      exact ⟨by simp [hac], fun he => absurd (he ▸ hac) (by simp)⟩
    | eq =>
      have hbc := (cmpHandRank_eq_iff _ _).mp ho2
      have hac : cmpHandRank a.rank c.rank = .eq := by
        rw [cmpHandRank_eq_iff]
        exact hab.trans hbc
      exact ⟨by simp [hac], fun _ => cmpKickers_le_trans _ _ _ (h1e ho1) (h2e ho2)⟩

/-- Comparing a hand with itself never yields greater. -/
lemma cmpEval_self_ne_gt (a : HandEvaluation) : cmpEval a a ≠ .gt := by
  intro h
  have := cmpEval_swap a a
  rw [h] at this
  exact absurd this (by simp [Ordering.swap])

/-- A strictly greater hand is not exceeded the other way round. -/
lemma cmpEval_gt_asymm {a b : HandEvaluation} (h : cmpEval a b = .gt) :
    cmpEval b a ≠ .gt := by
  rw [cmpEval_swap, h]
  simp [Ordering.swap]

/-- Invariant of the max_by fold: starting from an accumulated candidate,
the fold returns an element among the candidate and the list that no
element of the list (nor the candidate) exceeds. -/
lemma foldl_maxBy_spec :
    ∀ (l : List HandEvaluation) (a : HandEvaluation),
      ∃ m, (l.foldl
          (fun acc x =>
            match acc with
            | none => some x
            | some a => if cmpEval a x = .gt then some a else some x)
          (some a)) = some m ∧
        (m = a ∨ m ∈ l) ∧ cmpEval a m ≠ .gt ∧ ∀ x ∈ l, cmpEval x m ≠ .gt := by
  intro l
  induction l with
  | nil =>
    intro a
    exact ⟨a, rfl, Or.inl rfl, cmpEval_self_ne_gt a, by simp⟩
  | cons x xs ih =>
    intro a
    by_cases h : cmpEval a x = .gt
    · obtain ⟨m, hm, hmem, hle, hall⟩ := ih a
      refine ⟨m, ?_, ?_, hle, ?_⟩
      · simpa [List.foldl_cons, h] using hm
      · rcases hmem with h1 | h1
        · exact Or.inl h1
        · exact Or.inr (List.mem_cons_of_mem x h1)
      · intro y hy
        rcases List.mem_cons.mp hy with rfl | hy2
        · exact cmpEval_le_trans (cmpEval_gt_asymm h) hle
        · exact hall y hy2
    · obtain ⟨m, hm, hmem, hle, hall⟩ := ih x
      refine ⟨m, ?_, ?_, cmpEval_le_trans h hle, ?_⟩
      · simpa [List.foldl_cons, h] using hm
      · rcases hmem with h1 | h1
        · exact Or.inr (h1 ▸ List.mem_cons_self x xs)
        · exact Or.inr (List.mem_cons_of_mem x h1)
      · intro y hy
        rcases List.mem_cons.mp hy with rfl | hy2
        · exact hle
        · exact hall y hy2

/-- maxByEval of a nonempty list returns a maximum element of the list
under the hand comparison. -/
lemma maxByEval_spec (l : List HandEvaluation) (hl : l ≠ []) :
    ∃ m, maxByEval l = some m ∧ m ∈ l ∧ ∀ x ∈ l, cmpEval x m ≠ .gt := by
  cases l with
  | nil => exact absurd rfl hl
  | cons x xs =>
    obtain ⟨m, hm, hmem, hle, hall⟩ := foldl_maxBy_spec xs x
    refine ⟨m, ?_, ?_, ?_⟩
    · simpa [maxByEval, List.foldl_cons] using hm
    · rcases hmem with h1 | h1
      · exact h1 ▸ List.mem_cons_self x xs
      · exact List.mem_cons_of_mem x h1
    · intro y hy
      rcases List.mem_cons.mp hy with rfl | hy2
      · exact hle
      · exact hall y hy2

/-- Membership in the generated combinations is exactly being a sublist of
the given length. -/
lemma mem_combinations :
    ∀ (l : List Card) (k : Nat) (x : List Card),
      x ∈ combinations l k ↔ x.Sublist l ∧ x.length = k := by
  intro l
  induction l with
  | nil =>
    intro k x
    cases k with
    | zero =>
      simp only [combinations, List.mem_singleton]
      constructor
      · rintro rfl
        exact ⟨List.Sublist.refl [], rfl⟩
      · rintro ⟨hs, hl⟩
        exact List.eq_nil_of_length_eq_zero hl
    | succ k =>
      simp only [combinations, List.not_mem_nil, false_iff, not_and]
      intro hs
      rw [List.sublist_nil.mp hs]
      simp
  | cons c rest ih =>
    intro k x
    cases k with
    | zero =>
      simp only [combinations, List.mem_singleton]
      constructor
      · rintro rfl
        exact ⟨List.nil_sublist _, rfl⟩
      · rintro ⟨hs, hl⟩
        exact List.eq_nil_of_length_eq_zero hl
    | succ k =>
      simp only [combinations, List.mem_append, List.mem_map, ih]
      constructor
      · rintro (⟨y, ⟨hy, hylen⟩, rfl⟩ | ⟨hs, hl⟩)
        · exact ⟨List.Sublist.cons₂ c hy, by simp [hylen]⟩
        · exact ⟨List.Sublist.cons c hs, hl⟩
      · rintro ⟨hs, hl⟩
        cases hs with
        | cons _ h => exact Or.inr ⟨h, hl⟩
        | cons₂ _ h =>
          exact Or.inl ⟨_, ⟨h, by simpa using hl⟩, rfl⟩

/-- combinations is nonempty whenever enough cards are supplied. -/
lemma combinations_ne_nil (l : List Card) (k : Nat) (h : k ≤ l.length) :
    combinations l k ≠ [] := by
  intro hnil
  have : l.take k ∈ combinations l k := by
    rw [mem_combinations]
    exact ⟨List.take_sublist k l, by simp [List.length_take]; omega⟩
  rw [hnil] at this
  exact List.not_mem_nil _ this

/-- C2. With five to seven cards available, evaluate_hand returns exactly
the maximum, under the category-then-kickers order, of the full five-card
evaluations of every five-card subset of hole cards plus board: the result
is one of those evaluations and none exceeds it. -/
theorem evaluate_hand_max (hole_cards board : List Card)
    (_hh : hole_cards.length = 2)
    (h5 : 5 ≤ (hole_cards ++ board).length)
    (h7 : (hole_cards ++ board).length ≤ 7) :
    (∃ c ∈ List.sublistsLen 5 (hole_cards ++ board),
      evaluate_hand hole_cards board = evaluate_five c) ∧
    ∀ c ∈ List.sublistsLen 5 (hole_cards ++ board),
      cmpEval (evaluate_five c) (evaluate_hand hole_cards board) ≠ .gt := by
  have hne : (combinations (hole_cards ++ board) 5).map evaluate_five ≠ [] := by
    intro hcontra
    rw [List.map_eq_nil_iff] at hcontra
    exact combinations_ne_nil (hole_cards ++ board) 5 h5 hcontra
  obtain ⟨m, hm, hmem, hall⟩ := maxByEval_spec _ hne
  have hresult : evaluate_hand hole_cards board = m := by
    simp only [evaluate_hand]
    rw [if_neg (by omega), hm]
  constructor
  · obtain ⟨c, hc, hce⟩ := List.mem_map.mp hmem
    obtain ⟨hs, hl⟩ := (mem_combinations _ 5 c).mp hc
    exact ⟨c, List.mem_sublistsLen.mpr ⟨hs, hl⟩, hresult.trans hce.symm⟩
  · intro c hc
    obtain ⟨hs, hl⟩ := List.mem_sublistsLen.mp hc
    have hmemc : evaluate_five c ∈ (combinations (hole_cards ++ board) 5).map evaluate_five :=
      List.mem_map.mpr ⟨c, (mem_combinations _ 5 c).mpr ⟨hs, hl⟩, rfl⟩
    rw [hresult]
    exact hall _ hmemc

/-- Witness for C2 at a broadway board: two hole cards and three board
cards give exactly five cards, and the royal evaluation is the maximum of
the single five-card subset. -/
theorem evaluate_hand_max_witness :
    (∃ c ∈ List.sublistsLen 5
        ([⟨.ace, .spades⟩, ⟨.king, .hearts⟩] ++
          [⟨.queen, .diamonds⟩, ⟨.jack, .clubs⟩, ⟨.ten, .spades⟩]),
      evaluate_hand [⟨.ace, .spades⟩, ⟨.king, .hearts⟩]
        [⟨.queen, .diamonds⟩, ⟨.jack, .clubs⟩, ⟨.ten, .spades⟩] = evaluate_five c) ∧
    ∀ c ∈ List.sublistsLen 5
        ([⟨.ace, .spades⟩, ⟨.king, .hearts⟩] ++
          [⟨.queen, .diamonds⟩, ⟨.jack, .clubs⟩, ⟨.ten, .spades⟩]),
      cmpEval (evaluate_five c)
        (evaluate_hand [⟨.ace, .spades⟩, ⟨.king, .hearts⟩]
          [⟨.queen, .diamonds⟩, ⟨.jack, .clubs⟩, ⟨.ten, .spades⟩]) ≠ .gt :=
  evaluate_hand_max
    [⟨.ace, .spades⟩, ⟨.king, .hearts⟩]
    [⟨.queen, .diamonds⟩, ⟨.jack, .clubs⟩, ⟨.ten, .spades⟩]
    rfl (by decide) (by decide)

end Poker
